import Mathlib

/-!
Formal model of the DocExtract highlight engine.

The definitions below are a shallow embedding of the highlight engine of
the DocExtract repository, chiefly `src/components/workspace/HighlightOverlay.tsx`
(payload normalizer `buildIndexLookup`, the box merge engine `boxesOverlap` /
`mergeBoxes`, the coordinate transform in `positionedHighlights` /
`activeHighlights`, the page offset table) together with
`PDFViewerWrapper`'s `getPageOffsets` and the click / decay-timer logic of
`src/pages/Workspace.tsx` (`handleWordIndexClick`).

JavaScript numbers are modelled as rationals (ℚ); all the arithmetic the
engine performs (additions, multiplications by the literals 0.5, 0.6, scale
factors) is exact on the inputs considered, so ℚ is a faithful carrier.
JavaScript falsiness of a number is the test `= 0`; nullish (`??`) access of
a possibly missing field is modelled by `Option`.
-/

/-- An axis-aligned box `{x, y, width, height}` in source coordinates, the
shape manipulated by `boxesOverlap` and the per-page merge loop. -/
structure XYWH where
  x : ℚ
  y : ℚ
  width : ℚ
  height : ℚ
deriving DecidableEq, Repr

/-- A box tagged with its page number: the element shape of the input of
`mergeBoxes` (`{x, y, width, height, page}`). -/
structure PBox where
  x : ℚ
  y : ℚ
  width : ℚ
  height : ℚ
  page : ℚ
deriving DecidableEq, Repr

/-- Forget the page tag (the per-page grouping step of `mergeBoxes` stores
only `{x, y, width, height}` per page). -/
def PBox.toXYWH (b : PBox) : XYWH := ⟨b.x, b.y, b.width, b.height⟩

/-- The synthetic id strings attached to highlights, represented by their
interpolated components: `pageId p n` stands for the template string
`page-${p}-highlight-${n}` (in `mergeBoxes`) and `lineId l i` for
`line-${activeLineNumbers[idx]}-${idx}` (in `activeHighlights`, where the
looked-up line number may be absent). -/
inductive HighlightId where
  | pageId (page : ℚ) (seq : ℕ)
  | lineId (lineNo : Option ℚ) (seq : ℕ)
deriving DecidableEq, Repr

/-- The `MergedHighlight` record of `HighlightOverlay.tsx`:
`{id, x, y, width, height, page}`. -/
structure MergedHighlight where
  id : HighlightId
  x : ℚ
  y : ℚ
  width : ℚ
  height : ℚ
  page : ℚ
deriving DecidableEq, Repr

/-- `boxesOverlap` (HighlightOverlay.tsx lines 110-126) with `gapRatio` at
its default value `0.5`, the only value callers ever use: a horizontal
proximity test (extents within `gap = 0.5 * min(height)` of each other)
conjoined with a vertical test comparing the top edges `y` against
`0.6 * max(height)`. -/
def boxesOverlap (b1 b2 : XYWH) : Bool :=
  let gap := min b1.height b2.height * (1/2)
  (decide (b1.x ≤ b2.x + b2.width + gap) && decide (b1.x + b1.width + gap ≥ b2.x))
    && decide (|b1.y - b2.y| ≤ max b1.height b2.height * (3/5))

/-- The sort comparator of `mergeBoxes` (lines 146-151): boxes whose top
edges differ by more than `0.6 * max(height)` are ordered by `y`
("different lines"), otherwise by `x` ("same line"). -/
def boxCompare (a b : XYWH) : ℚ :=
  if |a.y - b.y| > max a.height b.height * (3/5) then a.y - b.y else a.x - b.x

/-- Stable insertion of one element into an already sorted list: the element
is placed before the first entry it compares strictly below.  Used to model
`Array.prototype.sort`, which is stable. -/
def insertSorted (x : XYWH) : List XYWH → List XYWH
  | [] => [x]
  | y :: rest => if boxCompare x y < 0 then x :: y :: rest else y :: insertSorted x rest

/-- Stable sort with `boxCompare`, the model of
`[...pageBoxes].sort(comparator)` in `mergeBoxes`. -/
def jsSort (l : List XYWH) : List XYWH := l.foldl (fun acc x => insertSorted x acc) []

/-- The bounding union computed when two boxes merge (lines 171-187):
`minX/minY` corner plus `maxX/maxY` extents. -/
def unionBox (a b : XYWH) : XYWH :=
  ⟨min a.x b.x, min a.y b.y,
   max (a.x + a.width) (b.x + b.width) - min a.x b.x,
   max (a.y + a.height) (b.y + b.height) - min a.y b.y⟩

/-- One pass of the inner `for (j ...)` loop of `mergeBoxes`: scan the
not-yet-processed boxes left to right, absorbing each one that overlaps the
(growing) current box; returns the grown box, the boxes left unprocessed in
order, and whether any merge happened (`mergedAny`). -/
def absorb (cur : XYWH) : List XYWH → XYWH × List XYWH × Bool
  | [] => (cur, [], false)
  | b :: rest =>
      if boxesOverlap cur b then
        let r := absorb (unionBox cur b) rest
        (r.1, r.2.1, true)
      else
        let r := absorb cur rest
        (r.1, b :: r.2.1, r.2.2)

/-- The `while (mergedAny)` loop of `mergeBoxes`, fuelled: repeat `absorb`
passes while a pass merged something.  A merging pass strictly shrinks the
unprocessed list, so `length + 1` units of fuel always reach the fixed
point (proved in `growFuel_stable`). -/
def growFuel : ℕ → XYWH → List XYWH → XYWH × List XYWH
  | 0, cur, rest => (cur, rest)
  | n + 1, cur, rest =>
      let r := absorb cur rest
      if r.2.2 then growFuel n r.1 r.2.1 else (r.1, r.2.1)

/-- The cluster-growing loop with its sufficient fuel. -/
def grow (cur : XYWH) (rest : List XYWH) : XYWH × List XYWH :=
  growFuel (rest.length + 1) cur rest

/-- The outer `for (i ...)` loop of `mergeBoxes`, fuelled: take the first
unprocessed box, grow its cluster, emit it, continue on what is left.  The
remainder returned by `grow` never exceeds the length of its input, so
`length` units of fuel suffice and the `0, _` branch is unreachable. -/
def clustersGo : ℕ → List XYWH → List XYWH
  | _, [] => []
  | 0, _ => []
  | n + 1, b :: rest =>
      let r := grow b rest
      r.1 :: clustersGo n r.2

/-- Merged cluster boxes of one page, in emission order. -/
def clusters (l : List XYWH) : List XYWH := clustersGo l.length l

/-- The pages of the input in first-occurrence order: the iteration order of
the `boxesByPage` insertion-ordered `Map` of `mergeBoxes`. -/
def firstOccur : List ℚ → List ℚ
  | [] => []
  | p :: rest => p :: firstOccur (rest.filter (fun q => q != p))
termination_by l => l.length
decreasing_by
  simp only [List.length_cons]
  exact Nat.lt_succ_of_le (List.length_filter_le _ _)

/-- Attach the per-page synthetic ids `page-${page}-highlight-${n}` in
emission order, starting at `n`. -/
def withIds (page : ℚ) : ℕ → List XYWH → List MergedHighlight
  | _, [] => []
  | n, b :: rest =>
      ⟨.pageId page n, b.x, b.y, b.width, b.height, page⟩ :: withIds page (n + 1) rest

/-- `mergeBoxes` (HighlightOverlay.tsx lines 129-205): group the input by
page in first-occurrence order, sort each page's boxes with the comparator,
run the merging loops, and emit each page's clusters with synthetic ids. -/
def mergeBoxes (boxes : List PBox) : List MergedHighlight :=
  (firstOccur (boxes.map (fun b => b.page))).flatMap
    (fun p =>
      withIds p 0 (clusters (jsSort ((boxes.filter (fun b => b.page == p)).map PBox.toXYWH))))

/-- A `MergedHighlight` viewed again as a `mergeBoxes` input (the structural
typing JavaScript applies when the output of `mergeBoxes` is fed back in:
the extra `id` field is simply ignored). -/
def mhToPBox (h : MergedHighlight) : PBox := ⟨h.x, h.y, h.width, h.height, h.page⟩

/-- A JavaScript field holding either nothing (absent / `null` /
`undefined`), a number, or a truthy non-number value; the shapes the
normalizer distinguishes with `typeof` checks on `index` and `page`. -/
inductive JField where
  | absent
  | num (q : ℚ)
  | other
deriving DecidableEq, Repr

/-- The named fields the normalizer reads off a bounding-box object, each
possibly absent (`none` models `undefined`/`null`, read through `??`). -/
structure BBoxFields where
  x1 : Option ℚ := none
  x : Option ℚ := none
  left : Option ℚ := none
  y1 : Option ℚ := none
  y : Option ℚ := none
  top : Option ℚ := none
  x2 : Option ℚ := none
  right : Option ℚ := none
  y2 : Option ℚ := none
  bottom : Option ℚ := none
  width : Option ℚ := none
  height : Option ℚ := none
deriving DecidableEq, Repr

/-- The value of a `bbox` / `bounding_box` field of a word entry: falsy
(absent, `null`, `0`, `""`, ...), a truthy non-object (skipped by the
`typeof bbox !== "object"` check), or an object carrying fields. -/
inductive JBoxField where
  | falsy
  | nonObjTruthy
  | obj (b : BBoxFields)
deriving DecidableEq, Repr

/-- A word entry of the payload's `words` arrays. -/
structure WordObj where
  index : JField := .absent
  page : JField := .absent
  bbox : JBoxField := .falsy
  bounding_box : JBoxField := .falsy
deriving DecidableEq, Repr

/-- An element of a `words` array: either not an object (skipped by
`!word || typeof word !== "object"`) or a word object. -/
inductive WordEntry where
  | nonObject
  | obj (w : WordObj)
deriving DecidableEq, Repr

/-- An entry of the payload's `pages` array: `{page | index, words}`. -/
structure PageObj where
  page : JField := .absent
  index : JField := .absent
  words : List WordEntry := []
deriving DecidableEq, Repr

/-- The bounding-box payload as consumed by `buildIndexLookup`: the
top-level `words` and `pages` arrays (an absent array behaves as `[]`
through `|| []`). -/
structure BBPayload where
  words : List WordEntry := []
  pages : List PageObj := []
deriving DecidableEq, Repr

/-- The `BoundingBox` record stored in the lookup:
`{x, y, width, height, page}`. -/
structure BoundingBox where
  x : ℚ
  y : ℚ
  width : ℚ
  height : ℚ
  page : ℚ
deriving DecidableEq, Repr

/-- `word.bbox || word.bounding_box || {}`: first truthy of the two box
fields, else the empty object (which is truthy and of object type, so the
subsequent `!bbox || typeof bbox !== "object"` guard only ever skips a
truthy non-object). -/
def effBox (w : WordObj) : JBoxField :=
  match w.bbox with
  | .falsy =>
      match w.bounding_box with
      | .falsy => .obj {}
      | f => f
  | f => f

/-- The corner resolution chains of `buildIndexLookup`
(`x1 ?? x ?? left ?? 0`, `y1 ?? y ?? top ?? 0`,
`x2 ?? right ?? x1 + (width ?? 0)`, `y2 ?? bottom ?? y1 + (height ?? 0)`). -/
def resolveCorners (b : BBoxFields) : ℚ × ℚ × ℚ × ℚ :=
  let x1 := ((b.x1 <|> b.x) <|> b.left).getD 0
  let y1 := ((b.y1 <|> b.y) <|> b.top).getD 0
  let x2 := (b.x2 <|> b.right).getD (x1 + b.width.getD 0)
  let y2 := (b.y2 <|> b.bottom).getD (y1 + b.height.getD 0)
  (x1, y1, x2, y2)

/-- The box stored by `lookup.set`: top-left corner `min` of the two
resolved corners, absolute differences as extents. -/
def mkBox (b : BBoxFields) (page : ℚ) : BoundingBox :=
  let c := resolveCorners b
  ⟨min c.1 c.2.2.1, min c.2.1 c.2.2.2, |c.2.2.1 - c.1|, |c.2.2.2 - c.2.1|, page⟩

/-- `const page = word.page || 1` followed by
`typeof page === "number" ? page : 1`: a nonzero number passes through,
everything else collapses to `1`. -/
def wordPage (w : WordObj) : ℚ :=
  match w.page with
  | .num q => if q = 0 then 1 else q
  | _ => 1

/-- Insertion-ordered map update, the semantics of JavaScript
`Map.prototype.set`: overwrite in place if the key exists, else append. -/
def mapSet (m : List (ℚ × BoundingBox)) (k : ℚ) (v : BoundingBox) :
    List (ℚ × BoundingBox) :=
  if m.any (fun e => e.1 == k) then
    m.map (fun e => if e.1 == k then (k, v) else e)
  else
    m ++ [(k, v)]

/-- `Map.prototype.get`. -/
def mapGet (m : List (ℚ × BoundingBox)) (k : ℚ) : Option BoundingBox :=
  (m.find? (fun e => e.1 == k)).map (fun e => e.2)

/-- Processing of one entry of the top-level `words` array
(HighlightOverlay.tsx lines 218-239): skip non-objects, skip entries whose
`index` is not a number, skip entries whose effective box is a truthy
non-object; otherwise store the resolved box under the index.  The
`.falsy` case of `effBox` is unreachable (`effBox` never returns it). -/
def processWord (m : List (ℚ × BoundingBox)) (e : WordEntry) :
    List (ℚ × BoundingBox) :=
  match e with
  | .nonObject => m
  | .obj w =>
      match w.index with
      | .num i =>
          match effBox w with
          | .obj b => mapSet m i (mkBox b (wordPage w))
          | _ => m
      | _ => m

/-- `const pageNum = page.page ?? page.index ?? 1` followed (per stored
word) by `typeof pageNum === "number" ? pageNum : 1`.  Note there is no
`|| 1` here, so a numeric `0` page survives, unlike in `wordPage`. -/
def pageNumVal (p : PageObj) : ℚ :=
  match (match p.page with | .absent => p.index | f => f) with
  | .num q => q
  | _ => 1

/-- Processing of one word of a nested `pages[k].words` array (lines
245-265): identical to `processWord` except the page comes from the
enclosing page entry and the word's own `page` field is ignored. -/
def processPageWord (pn : ℚ) (m : List (ℚ × BoundingBox)) (e : WordEntry) :
    List (ℚ × BoundingBox) :=
  match e with
  | .nonObject => m
  | .obj w =>
      match w.index with
      | .num i =>
          match effBox w with
          | .obj b => mapSet m i (mkBox b pn)
          | _ => m
      | _ => m

/-- `buildIndexLookup` (HighlightOverlay.tsx lines 208-269): fold the
top-level `words` array, then every nested `pages[k].words` array, into an
insertion-ordered index → box map. -/
def buildIndexLookup (p : BBPayload) : List (ℚ × BoundingBox) :=
  let m1 := p.words.foldl processWord []
  p.pages.foldl (fun m pg => pg.words.foldl (processPageWord (pageNumVal pg)) m) m1

/-- A `pageMetadata` entry handed to the overlay by the renderer:
`{pageNumber, width, height, scale}` at the current zoom. -/
structure PageMeta where
  pageNumber : ℚ
  width : ℚ
  height : ℚ
  scale : ℚ
deriving DecidableEq, Repr

/-- `getPageOffsets` inner loop: successive partial sums
`cur + height + 16` over the remaining pages. -/
def offsetsFrom (cur : ℚ) : List PageMeta → List ℚ
  | [] => []
  | m :: rest => (cur + m.height + 16) :: offsetsFrom (cur + m.height + 16) rest

/-- `getPageOffsets` (PDFViewerWrapper, part_008 lines 425-433):
`offsets[0] = 0`, then one running-sum entry per page with the fixed
16-pixel inter-page margin. -/
def getPageOffsets (md : List PageMeta) : List ℚ := 0 :: offsetsFrom 0 md

/-- The `pageOffsets` memo of `HighlightOverlay.tsx` (lines 386-395): the
same loop, but guarded by `!pageMetadata.length`, returning `[]` for an
empty page list. -/
def pageOffsetsOverlay (md : List PageMeta) : List ℚ :=
  if md.length = 0 then [] else 0 :: offsetsFrom 0 md

/-- JavaScript array indexing with a numeric (not necessarily integral or
in-range) index: `arr[q]` is defined only when `q` is a non-negative
integer. -/
def qIdx (q : ℚ) : Option ℕ :=
  if q.den = 1 ∧ 0 ≤ q.num then some q.num.toNat else none

/-- `pageMetadata[highlight.page - 1]`: `undefined` (`none`) when the page
has no matching viewport entry. -/
def metaAt (md : List PageMeta) (page : ℚ) : Option PageMeta :=
  match qIdx (page - 1) with
  | none => none
  | some i => md[i]?

/-- `pageOffsets[pageIndex] || 0` for a page ℚ-index: a missing entry (and
a falsy `0` entry, which coincides with the default) gives `0`. -/
def offsetAt (offs : List ℚ) (page : ℚ) : ℚ :=
  (match qIdx (page - 1) with
   | none => none
   | some i => offs[i]?).getD 0

/-- JavaScript `a || b` on numbers: `a` when nonzero, else `b`. -/
def jsOr (a b : ℚ) : ℚ := if a = 0 then b else a

/-- The array-form branch of `lineNumbersToBoxes` (HighlightOverlay.tsx
lines 332-338 and the `width > 0 && height > 0` guard of line 347): a raw
line tuple `[page, baseY, lineHeight, pageHeightReference]` becomes
`{x: 0, y: baseY, width: 500, height: lineHeight, page}` — the hard-coded
default width 500 — and is kept only when width and height are positive.
The tuple's fourth element (the page-height reference) is not read. -/
def lineTupleToBox (t : ℚ × ℚ × ℚ × ℚ) : Option PBox :=
  let page := jsOr t.1 1
  let y := jsOr t.2.1 0
  let height := jsOr t.2.2.1 0
  let width : ℚ := 500
  if 0 < width ∧ 0 < height then some ⟨0, y, width, height, page⟩ else none

/-- The per-box transform of the `activeHighlights` memo (HighlightOverlay
lines 560-577): `null` when the box's page has no metadata entry, otherwise
the vertical flip `pageHeight - y - height`, scaling by `currentScale`, and
the page's cumulative offset added to `y`. -/
def lineTransformOne (md : List PageMeta) (offs : List ℚ) (sc : ℚ)
    (lnos : List ℚ) (idx : ℕ) (box : PBox) : Option MergedHighlight :=
  match metaAt md box.page with
  | none => none
  | some meta =>
      some ⟨.lineId lnos[idx]? idx,
            box.x * sc,
            (meta.height - box.y - box.height) * sc + offsetAt offs box.page,
            box.width * sc,
            box.height * sc,
            box.page⟩

/-- Pair every element with its index, starting at `n`. -/
def withIdx (n : ℕ) : List PBox → List (ℕ × PBox)
  | [] => []
  | b :: rest => (n, b) :: withIdx (n + 1) rest

/-- The line-based `activeHighlights` pipeline (lines 558-577):
`lineNumbersToBoxes.map(transform).filter(h => h !== null)`. -/
def activeLineHighlights (md : List PageMeta) (offs : List ℚ) (sc : ℚ)
    (lnos : List ℚ) (boxes : List PBox) : List MergedHighlight :=
  ((withIdx 0 boxes).map (fun p => lineTransformOne md offs sc lnos p.1 p.2)).filterMap id

/-- The word-index `positionedHighlights` memo (HighlightOverlay lines
411-431): a highlight whose page has no metadata entry is returned
*unchanged* (`if (!pageMeta) return highlight`), all others are scaled,
vertically flipped and offset. -/
def positionedHighlights (md : List PageMeta) (offs : List ℚ) (sc : ℚ)
    (hs : List MergedHighlight) : List MergedHighlight :=
  hs.map (fun h =>
    match metaAt md h.page with
    | none => h
    | some meta =>
        ⟨h.id,
         h.x * sc,
         (meta.height - h.y - h.height) * sc + offsetAt offs h.page,
         h.width * sc,
         h.height * sc,
         h.page⟩)

/-- One timeline event of the `Workspace.tsx` click model: at `time`, set
`activeHighlightId` to `val`. -/
def ClickEvent : Type := ℚ × Option ℚ

/-- Insert an event into a time-ordered list (stable for equal times). -/
def insertByTime (e : ℚ × Option ℚ) : List (ℚ × Option ℚ) → List (ℚ × Option ℚ)
  | [] => [e]
  | f :: rest => if e.1 < f.1 then e :: f :: rest else f :: insertByTime e rest

/-- Sort events by time (stable). -/
def sortByTime (l : List (ℚ × Option ℚ)) : List (ℚ × Option ℚ) :=
  l.foldl (fun acc e => insertByTime e acc) []

/-- The decay-timer semantics of `handleWordIndexClick` (Workspace.tsx
lines 81-91): a click at time `t` runs
`setActiveHighlightId(highlight-${Date.now()})` — modelled as `some t` —
and schedules `setTimeout(() => setActiveHighlightId(null), 2000)`, an
*unconditional* reset with no token check and no `clearTimeout` of earlier
pending timers.  `wsActiveAt clicks T` is the value of `activeHighlightId`
at time `T`: the effect of the last event (click or timer firing) at or
before `T`. -/
def wsActiveAt (clicks : List ℚ) (T : ℚ) : Option ℚ :=
  ((sortByTime
      (clicks.map (fun t => (t, some t)) ++
       clicks.map (fun t => (t + 2000, (none : Option ℚ))))).filter
    (fun e => decide (e.1 ≤ T))).foldl (fun _ e => e.2) none


/-- The word entries the normalizer skips: non-objects, entries whose
`index` is not a number, and entries whose effective box value is a truthy
non-object.  (An entry with a numeric index whose box fields are merely
*absent* is NOT skipped: the `|| {}` fallback yields an empty object that
passes the `typeof` check and resolves to an all-zero box.) -/
def skippedWord : WordEntry → Prop
  | .nonObject => True
  | .obj w =>
      (match w.index with
       | .num _ => False
       | _ => True) ∨ effBox w = .nonObjTruthy


/-- The unprocessed remainder of an `absorb` pass never grows. -/
theorem absorb_kept_le (l : List XYWH) : ∀ cur, (absorb cur l).2.1.length ≤ l.length := by
  induction l with
  | nil => intro cur; simp [absorb]
  | cons b rest ih =>
      intro cur
      simp only [absorb]
      split
      · exact le_trans (ih _) (Nat.le_succ _)
      · simpa using ih cur

/-- A pass that merged something strictly shrinks the unprocessed list:
the "strictly shrinks by at least one element per successful merge"
argument of the specification. -/
theorem absorb_merged_lt (l : List XYWH) :
    ∀ cur, (absorb cur l).2.2 = true → (absorb cur l).2.1.length < l.length := by
  induction l with
  | nil => intro cur h; simp [absorb] at h
  | cons b rest ih =>
      intro cur
      simp only [absorb]
      split
      · intro _
        exact Nat.lt_succ_of_le (absorb_kept_le rest _)
      · intro h
        simp only at h
        simpa using ih cur h

/-- A pass that merged nothing changes nothing. -/
theorem absorb_no_merge (l : List XYWH) :
    ∀ cur, (absorb cur l).2.2 = false → absorb cur l = (cur, l, false) := by
  induction l with
  | nil => intro cur _; simp [absorb]
  | cons b rest ih =>
      intro cur
      simp only [absorb]
      split
      · intro h; simp at h
      · intro h
        simp only at h
        simp [ih cur h]

/-- The fuelled `while (mergedAny)` loop is insensitive to the exact fuel as
soon as the fuel exceeds the number of unprocessed boxes. -/
theorem growFuel_stable :
    ∀ (n m : ℕ) (cur : XYWH) (l : List XYWH),
      l.length < n → l.length < m → growFuel n cur l = growFuel m cur l := by
  intro n
  induction n with
  | zero => intro m cur l hn _; exact absurd hn (Nat.not_lt_zero _)
  | succ n ih =>
      intro m cur l hn hm
      match m, hm with
      | m + 1, hm =>
        simp only [growFuel]
        split
        · next hmerged =>
            have hlt := absorb_merged_lt l cur hmerged
            exact ih m _ _ (lt_of_lt_of_le hlt (Nat.lt_succ_iff.mp hn))
              (lt_of_lt_of_le hlt (Nat.lt_succ_iff.mp hm))
        · rfl

/-- The remainder left over by the cluster-growing loop never exceeds its
input. -/
theorem growFuel_snd_le :
    ∀ (n : ℕ) (cur : XYWH) (l : List XYWH), (growFuel n cur l).2.length ≤ l.length := by
  intro n
  induction n with
  | zero => intro cur l; simp [growFuel]
  | succ n ih =>
      intro cur l
      simp only [growFuel]
      split
      · next hmerged =>
          exact le_trans (ih _ _) (le_of_lt (absorb_merged_lt l cur hmerged))
      · exact absorb_kept_le l cur

/-- The result of the (sufficiently fuelled) loop is a genuine fixed point:
one more `absorb` pass over it merges nothing. -/
theorem grow_fixpoint :
    ∀ (n : ℕ) (cur : XYWH) (l : List XYWH), l.length < n →
      (absorb (growFuel n cur l).1 (growFuel n cur l).2).2.2 = false := by
  intro n
  induction n with
  | zero => intro cur l hn; exact absurd hn (Nat.not_lt_zero _)
  | succ n ih =>
      intro cur l hn
      simp only [growFuel]
      split
      · next hmerged =>
          exact ih _ _ (lt_of_lt_of_le (absorb_merged_lt l cur hmerged) (Nat.lt_succ_iff.mp hn))
      · next hnone =>
          simp only [Bool.not_eq_true] at hnone
          have hfix := absorb_no_merge l cur hnone
          simp [hfix]

/-- C9: The merge operation terminates on every finite input list of boxes:
a successful merging pass strictly reduces the number of unprocessed boxes,
so the iterative rescan (`while (mergedAny)` in `mergeBoxes`) reaches a
fixed point after finitely many passes — any fuel beyond the list length
gives the same result as the fuel `mergeBoxes` runs with (`grow`), and that
result admits no further merge. -/
theorem C9_merge_terminates (cur : XYWH) (l : List XYWH) (n : ℕ) (hn : l.length < n) :
    ((absorb cur l).2.2 = true → (absorb cur l).2.1.length < l.length) ∧
    growFuel n cur l = grow cur l ∧
    (absorb (grow cur l).1 (grow cur l).2).2.2 = false := by
  refine ⟨absorb_merged_lt l cur, ?_, ?_⟩
  · exact growFuel_stable n (l.length + 1) cur l hn (Nat.lt_succ_self _)
  · exact grow_fixpoint (l.length + 1) cur l (Nat.lt_succ_self _)

/-- Witness for `C9_merge_terminates` at a concrete two-box input with
strictly more fuel than boxes. -/
theorem C9_merge_terminates_witness :
    ((absorb ⟨0, 0, 10, 10⟩ [⟨5, 2, 10, 10⟩]).2.2 = true →
      (absorb ⟨0, 0, 10, 10⟩ [⟨5, 2, 10, 10⟩]).2.1.length < 1) ∧
    growFuel 5 ⟨0, 0, 10, 10⟩ [⟨5, 2, 10, 10⟩] = grow ⟨0, 0, 10, 10⟩ [⟨5, 2, 10, 10⟩] ∧
    (absorb (grow ⟨0, 0, 10, 10⟩ [⟨5, 2, 10, 10⟩]).1
        (grow ⟨0, 0, 10, 10⟩ [⟨5, 2, 10, 10⟩]).2).2.2 = false := by
  have h := C9_merge_terminates ⟨0, 0, 10, 10⟩ [⟨5, 2, 10, 10⟩] 5 (by norm_num)
  simpa using h

/-- Stable insertion adds exactly one element. -/
theorem insertSorted_length (x : XYWH) (l : List XYWH) :
    (insertSorted x l).length = l.length + 1 := by
  induction l with
  | nil => simp [insertSorted]
  | cons y rest ih =>
      simp only [insertSorted]
      split <;> simp [ih]

/-- Sorting preserves length. -/
theorem jsSort_length (l : List XYWH) : (jsSort l).length = l.length := by
  suffices h : ∀ acc : List XYWH,
      (l.foldl (fun a x => insertSorted x a) acc).length = acc.length + l.length by
    simpa using h []
  induction l with
  | nil => intro acc; simp
  | cons b rest ih =>
      intro acc
      simp only [List.foldl_cons]
      rw [ih, insertSorted_length]
      simp only [List.length_cons]
      omega

/-- The clustering loop never emits more clusters than it consumed boxes. -/
theorem clustersGo_length (n : ℕ) :
    ∀ l : List XYWH, (clustersGo n l).length ≤ l.length := by
  induction n with
  | zero => intro l; cases l <;> simp [clustersGo]
  | succ n ih =>
      intro l
      cases l with
      | nil => simp [clustersGo]
      | cons b rest =>
          simp only [clustersGo, List.length_cons]
          have h1 : (grow b rest).2.length ≤ rest.length := growFuel_snd_le _ _ _
          have h2 := ih (grow b rest).2
          omega

/-- `clusters` never emits more boxes than it is given. -/
theorem clusters_length (l : List XYWH) : (clusters l).length ≤ l.length :=
  clustersGo_length l.length l

/-- `withIds` is length-preserving. -/
theorem withIds_length (p : ℚ) : ∀ (n : ℕ) (l : List XYWH),
    (withIds p n l).length = l.length := by
  intro n l
  induction l generalizing n with
  | nil => simp [withIds]
  | cons b rest ih => simp [withIds, ih]

/-- Membership in `firstOccur` is membership in the original list. -/
theorem firstOccur_mem : ∀ (xs : List ℚ) (q : ℚ), q ∈ firstOccur xs ↔ q ∈ xs := by
  intro xs
  induction xs using firstOccur.induct with
  | case1 => intro q; simp [firstOccur]
  | case2 p rest ih =>
      intro q
      simp only [firstOccur, List.mem_cons, ih, List.mem_filter]
      constructor
      · rintro (rfl | ⟨hq, _⟩)
        · exact Or.inl rfl
        · exact Or.inr hq
      · rintro (rfl | hq)
        · exact Or.inl rfl
        · by_cases hqp : q = p
          · exact Or.inl hqp
          · exact Or.inr ⟨hq, by simpa using hqp⟩

/-- `firstOccur` has no duplicates. -/
theorem firstOccur_nodup : ∀ xs : List ℚ, (firstOccur xs).Nodup := by
  intro xs
  induction xs using firstOccur.induct with
  | case1 => simp [firstOccur]
  | case2 p rest ih =>
      simp only [firstOccur, List.nodup_cons]
      refine ⟨?_, ih⟩
      intro hmem
      have := (firstOccur_mem _ p).mp hmem
      simp [List.mem_filter] at this

/-- Summing the sizes of the per-page groups over a duplicate-free page list
covering every box recovers the total number of boxes. -/
theorem sum_filter_pages :
    ∀ (ps : List ℚ) (l : List PBox), ps.Nodup → (∀ b ∈ l, b.page ∈ ps) →
      ((ps.map (fun p => ((l.filter (fun b => b.page == p)).length))).sum = l.length) := by
  intro ps
  induction ps with
  | nil =>
      intro l _ hcov
      have : l = [] := List.eq_nil_iff_forall_not_mem.mpr (fun b hb => by simpa using hcov b hb)
      simp [this]
  | cons p rest ih =>
      intro l hnd hcov
      simp only [List.nodup_cons] at hnd
      simp only [List.map_cons, List.sum_cons]
      have hsplit : l.length =
          (l.filter (fun b => b.page == p)).length +
          (l.filter (fun b => !(b.page == p))).length :=
        List.length_eq_length_filter_add (fun b => b.page == p)
      have hrest : ∀ p' ∈ rest,
          l.filter (fun b => b.page == p') =
          (l.filter (fun b => !(b.page == p))).filter (fun b => b.page == p') := by
        intro p' hp'
        rw [List.filter_filter]
        apply List.filter_congr
        intro b _
        by_cases hb : b.page = p'
        · have hne : p' ≠ p := fun h => hnd.1 (h ▸ hp')
          simp [hb, hne]
        · simp [hb]
      have hmap : rest.map (fun p' => ((l.filter (fun b => b.page == p')).length)) =
          rest.map (fun p' =>
            (((l.filter (fun b => !(b.page == p))).filter (fun b => b.page == p')).length)) := by
        apply List.map_congr_left
        intro p' hp'
        rw [hrest p' hp']
      rw [hmap, ih (l.filter (fun b => !(b.page == p))) hnd.2 ?cov]
      · omega
      case cov =>
        intro b hb
        simp only [List.mem_filter, Bool.not_eq_eq_eq_not, Bool.not_true, beq_eq_false_iff_ne,
          ne_eq] at hb
        have := hcov b hb.1
        simp only [List.mem_cons] at this
        rcases this with h | h
        · exact absurd h hb.2
        · exact h

/-- `mergeBoxes` never returns more rectangles than it was given boxes. -/
theorem mergeBoxes_length_le (boxes : List PBox) :
    (mergeBoxes boxes).length ≤ boxes.length := by
  unfold mergeBoxes
  rw [List.length_flatMap]
  have hbound : ∀ p ∈ firstOccur (boxes.map (fun b => b.page)),
      (withIds p 0 (clusters (jsSort ((boxes.filter (fun b => b.page == p)).map
        PBox.toXYWH)))).length ≤ ((boxes.filter (fun b => b.page == p)).length) := by
    intro p _
    rw [withIds_length]
    calc (clusters (jsSort ((boxes.filter (fun b => b.page == p)).map PBox.toXYWH))).length
        ≤ (jsSort ((boxes.filter (fun b => b.page == p)).map PBox.toXYWH)).length :=
          clusters_length _
      _ = ((boxes.filter (fun b => b.page == p)).map PBox.toXYWH).length := jsSort_length _
      _ = (boxes.filter (fun b => b.page == p)).length := List.length_map _ _
  calc ((firstOccur (boxes.map (fun b => b.page))).map
          (fun p => (withIds p 0 (clusters (jsSort ((boxes.filter (fun b => b.page == p)).map
            PBox.toXYWH)))).length)).sum
      ≤ ((firstOccur (boxes.map (fun b => b.page))).map
          (fun p => (boxes.filter (fun b => b.page == p)).length)).sum := by
        apply List.sum_le_sum
        intro p hp
        exact hbound p hp
    _ = boxes.length := by
        apply sum_filter_pages
        · exact firstOccur_nodup _
        · intro b hb
          rw [firstOccur_mem]
          exact List.mem_map_of_mem _ hb

/-- C6 counterexample: `mergeBoxes` is *not* idempotent.  For the four
boxes below (all on page 1) a first pass produces two rectangles — the
clusters {(0,0,100,20),(10,10,100,20)} and {(5,23,100,10),(15,35,100,40)} —
whose merged bounding boxes have grown tall enough to satisfy the
`0.6 * max(height)` test against each other, so a second pass coalesces
them into a single rectangle: `merge(merge(boxes)) ≠ merge(boxes)`. -/
theorem C6_merge_not_idempotent_cex :
    mergeBoxes ((mergeBoxes
        [⟨0, 0, 100, 20, 1⟩, ⟨10, 10, 100, 20, 1⟩,
         ⟨5, 23, 100, 10, 1⟩, ⟨15, 35, 100, 40, 1⟩]).map mhToPBox) ≠
      mergeBoxes
        [⟨0, 0, 100, 20, 1⟩, ⟨10, 10, 100, 20, 1⟩,
         ⟨5, 23, 100, 10, 1⟩, ⟨15, 35, 100, 40, 1⟩] := by
  have h1 : mergeBoxes
        [(⟨0, 0, 100, 20, 1⟩ : PBox), ⟨10, 10, 100, 20, 1⟩,
         ⟨5, 23, 100, 10, 1⟩, ⟨15, 35, 100, 40, 1⟩]
      = [⟨.pageId 1 0, 0, 0, 110, 30, 1⟩, ⟨.pageId 1 1, 5, 23, 110, 52, 1⟩] := by
    norm_num [mergeBoxes, firstOccur, clusters, clustersGo, jsSort, insertSorted, boxCompare,
      grow, growFuel, absorb, boxesOverlap, unionBox, withIds, PBox.toXYWH, List.filter]
  rw [h1]
  intro hcontra
  have h2 : (mergeBoxes ([(⟨.pageId 1 0, 0, 0, 110, 30, 1⟩ : MergedHighlight),
      ⟨.pageId 1 1, 5, 23, 110, 52, 1⟩].map mhToPBox)).length = 1 := by
    norm_num [mergeBoxes, mhToPBox, firstOccur, clusters, clustersGo, jsSort, insertSorted,
      boxCompare, grow, growFuel, absorb, boxesOverlap, unionBox, withIds, PBox.toXYWH,
      List.filter]
  rw [hcontra] at h2
  simp at h2

/-- C6 amended: re-merging the output of `mergeBoxes` is not the identity,
but it can only coalesce further — it never yields more rectangles than the
first merge produced. -/
theorem C6_merge_remerge_length_le (boxes : List PBox) :
    (mergeBoxes ((mergeBoxes boxes).map mhToPBox)).length ≤ (mergeBoxes boxes).length := by
  calc (mergeBoxes ((mergeBoxes boxes).map mhToPBox)).length
      ≤ ((mergeBoxes boxes).map mhToPBox).length := mergeBoxes_length_le _
    _ = (mergeBoxes boxes).length := List.length_map _ _

/-- The overlap test is symmetric: its horizontal part says the two
`x`-extents are within `gap` of each other, its vertical part compares an
absolute difference. -/
theorem boxesOverlap_symm (a b : XYWH) : boxesOverlap a b = boxesOverlap b a := by
  simp only [boxesOverlap, ge_iff_le]
  rw [min_comm b.height a.height, max_comm b.height a.height, abs_sub_comm b.y a.y]
  rw [Bool.and_comm (decide (a.x ≤ b.x + b.width + min a.height b.height * (1 / 2)))]

/-- The bounding union is symmetric. -/
theorem unionBox_comm (a b : XYWH) : unionBox a b = unionBox b a := by
  simp [unionBox, min_comm, max_comm]

/-- C3 amended: for two boxes on the same page that satisfy the *code's*
mergeability test `boxesOverlap` (top edges within `0.6 * max(height)`,
horizontal extents within `0.5 * min(height)` of each other), `mergeBoxes`
returns exactly one rectangle whose bounds are the bounding union of the
two inputs. -/
theorem C3_mergeable_pair (b1 b2 : PBox) (hpage : b2.page = b1.page)
    (hov : boxesOverlap b1.toXYWH b2.toXYWH = true) :
    mergeBoxes [b1, b2] =
      [⟨.pageId b1.page 0, min b1.x b2.x, min b1.y b2.y,
        max (b1.x + b1.width) (b2.x + b2.width) - min b1.x b2.x,
        max (b1.y + b1.height) (b2.y + b2.height) - min b1.y b2.y, b1.page⟩] := by
  have hov' : boxesOverlap b2.toXYWH b1.toXYWH = true := by
    rw [boxesOverlap_symm]; exact hov
  have hfo : firstOccur [b1.page, b1.page] = [b1.page] := by
    simp [firstOccur]
  simp only [mergeBoxes, List.map_cons, List.map_nil, hpage, hfo, List.flatMap_cons,
    List.flatMap_nil, List.append_nil, List.filter, beq_self_eq_true]
  by_cases hc : boxCompare (PBox.toXYWH b2) (PBox.toXYWH b1) < 0
  · simp only [jsSort, List.foldl_cons, List.foldl_nil, insertSorted, if_pos hc, clusters,
      List.length_cons, List.length_nil, clustersGo, grow, growFuel, absorb, hov',
      if_pos hov', unionBox_comm b2.toXYWH b1.toXYWH]
    simp [withIds, unionBox, PBox.toXYWH]
  · simp only [jsSort, List.foldl_cons, List.foldl_nil, insertSorted, if_neg hc, clusters,
      List.length_cons, List.length_nil, clustersGo, grow, growFuel, absorb, hov,
      if_pos hov]
    simp [withIds, unionBox, PBox.toXYWH]

/-- Witness for `C3_mergeable_pair`: two same-line boxes merge into their
bounding union. -/
theorem C3_mergeable_pair_witness :
    mergeBoxes [⟨0, 0, 100, 20, 1⟩, ⟨10, 10, 100, 20, 1⟩] =
      [⟨.pageId 1 0, 0, 0, 110, 30, 1⟩] := by
  rw [C3_mergeable_pair ⟨0, 0, 100, 20, 1⟩ ⟨10, 10, 100, 20, 1⟩ rfl
    (by norm_num [boxesOverlap, PBox.toXYWH])]
  norm_num

/-- C3 counterexample: the claim's *stated* mergeability condition
(vertical **centers** within 60% of the larger height, horizontal extents
overlapping) is satisfied by the boxes `(0,0,10,100)` and `(0,95,10,10)` on
page 1 — centers 50 and 100 differ by 50 ≤ 60, identical x-extents — yet
`mergeBoxes` keeps them separate, because the code compares **top edges**
(difference 95 > 60), not centers. -/
theorem C3_centers_not_merged_cex :
    |((0 : ℚ) + 100 / 2) - (95 + 10 / 2)| ≤ (3 / 5) * max (100 : ℚ) 10 ∧
    max (0 : ℚ) 0 ≤ min ((0 : ℚ) + 10) (0 + 10) ∧
    (mergeBoxes [⟨0, 0, 10, 100, 1⟩, ⟨0, 95, 10, 10, 1⟩]).length ≠ 1 := by
  refine ⟨by norm_num, by norm_num, ?_⟩
  have h : mergeBoxes [(⟨0, 0, 10, 100, 1⟩ : PBox), ⟨0, 95, 10, 10, 1⟩] =
      [⟨.pageId 1 0, 0, 0, 10, 100, 1⟩, ⟨.pageId 1 1, 0, 95, 10, 10, 1⟩] := by
    norm_num [mergeBoxes, firstOccur, clusters, clustersGo, jsSort, insertSorted, boxCompare,
      grow, growFuel, absorb, boxesOverlap, unionBox, withIds, PBox.toXYWH, List.filter]
  rw [h]
  norm_num

/-- C2: the decay timer of `handleWordIndexClick` (Workspace.tsx 81-91) is
*not* token-guarded.  Clicking at t=0 (key A) and again at t=1000 (key B,
within A's 2000 ms decay window) leaves `activeHighlightId` equal to B's id
at t=1500 — but at t=2500, after A's decay deadline t=2000 has passed and
before B's deadline t=3000, A's stale unconditional
`setTimeout(() => setActiveHighlightId(null), 2000)` has already cleared
B's highlight: the value is `null`, not B's id. -/
theorem C2_stale_timer_clears_newer_click :
    (1000 : ℚ) < 0 + 2000 ∧
    (0 : ℚ) + 2000 ≤ 2500 ∧ (2500 : ℚ) < 1000 + 2000 ∧
    wsActiveAt [0, 1000] 1500 = some 1000 ∧
    wsActiveAt [0, 1000] 2500 = none := by
  refine ⟨by norm_num, by norm_num, by norm_num, ?_, ?_⟩ <;>
    norm_num [wsActiveAt, sortByTime, insertByTime, List.filter, List.foldl]

/-- C8: the page offset table starts at 0 and each successive entry adds
the previous page's height plus the fixed 16-pixel inter-page margin; the
guarded `pageOffsets` memo of the overlay computes the same table whenever
at least one page exists. -/
theorem C8_page_offsets (md : List PageMeta) (i : ℕ) (m : PageMeta) (prev : ℚ)
    (hm : md[i]? = some m) (hprev : (getPageOffsets md)[i]? = some prev) :
    (getPageOffsets md)[0]? = some 0 ∧
    (getPageOffsets md)[i + 1]? = some (prev + m.height + 16) ∧
    (md ≠ [] → pageOffsetsOverlay md = getPageOffsets md) := by
  refine ⟨by simp [getPageOffsets], ?_, ?_⟩
  · have aux : ∀ (md : List PageMeta) (cur : ℚ) (i : ℕ) (m : PageMeta) (prev : ℚ),
        md[i]? = some m → (cur :: offsetsFrom cur md)[i]? = some prev →
        (cur :: offsetsFrom cur md)[i + 1]? = some (prev + m.height + 16) := by
      intro md
      induction md with
      | nil => intro cur i m prev hm _; simp at hm
      | cons m0 rest ih =>
          intro cur i m prev hm hprev
          cases i with
          | zero =>
              simp only [List.getElem?_cons_zero, Option.some_inj] at hm hprev
              subst hm
              subst hprev
              simp [offsetsFrom]
          | succ j =>
              simp only [List.getElem?_cons_succ] at hm hprev ⊢
              simp only [offsetsFrom] at hprev ⊢
              exact ih (cur + m0.height + 16) j m prev hm hprev
    exact aux md 0 i m prev hm hprev
  · intro hne
    have : md.length ≠ 0 := fun h => hne (List.length_eq_zero.mp h)
    simp [pageOffsetsOverlay, getPageOffsets, this]

/-- Witness for `C8_page_offsets`: one page of height 792 gives the table
`[0, 808]`. -/
theorem C8_page_offsets_witness :
    (getPageOffsets [⟨1, 600, 792, 1⟩])[0]? = some 0 ∧
    (getPageOffsets [⟨1, 600, 792, 1⟩])[0 + 1]? = some (0 + 792 + 16) ∧
    ([(⟨1, 600, 792, 1⟩ : PageMeta)] ≠ [] →
      pageOffsetsOverlay [⟨1, 600, 792, 1⟩] = getPageOffsets [⟨1, 600, 792, 1⟩]) := by
  exact C8_page_offsets [⟨1, 600, 792, 1⟩] 0 ⟨1, 600, 792, 1⟩ 0 rfl rfl

/-- C1: a line tuple `[p, baseY, lineHeight, ref]` whose page has a
matching viewport of height exactly `ref` (source-to-viewport scale factor
1) and zoom scale 1 resolves — through the array branch of
`lineNumbersToBoxes` and the `activeHighlights` transform — to a rectangle
whose top-left `y` is `ref - (baseY + lineHeight)` plus the page's
cumulative offset, with height `lineHeight`. -/
theorem C1_line_tuple_flip (p baseY lh ref : ℚ) (md : List PageMeta) (offs lnos : List ℚ)
    (idx : ℕ) (i : ℕ) (meta : PageMeta)
    (hlh : 0 < lh) (hp : p ≠ 0)
    (hi : qIdx (p - 1) = some i) (hmeta : md[i]? = some meta) (href : meta.height = ref) :
    (lineTupleToBox (p, baseY, lh, ref)).bind (lineTransformOne md offs 1 lnos idx) =
      some ⟨.lineId lnos[idx]? idx, 0, ref - (baseY + lh) + offsetAt offs p, 500, lh, p⟩ := by
  have hjp : jsOr p 1 = p := by
    unfold jsOr
    exact if_neg hp
  have hjy : jsOr baseY 0 = baseY := by
    unfold jsOr
    split_ifs with h
    · exact h.symm
    · rfl
  have hjh : jsOr lh 0 = lh := by
    unfold jsOr
    exact if_neg (ne_of_gt hlh)
  have hbox : lineTupleToBox (p, baseY, lh, ref) = some ⟨0, baseY, 500, lh, p⟩ := by
    simp only [lineTupleToBox, hjp, hjy, hjh]
    rw [if_pos ⟨by norm_num, hlh⟩]
  rw [hbox, Option.some_bind]
  simp only [lineTransformOne, metaAt, hi, hmeta, href]
  have harith : (ref - baseY - lh) * 1 + offsetAt offs p =
      ref - (baseY + lh) + offsetAt offs p := by ring
  simp [harith]
  ring

/-- Witness for `C1_line_tuple_flip`: the end-to-end tuple `[1,700,20,792]`
with a single 792-high viewport at zoom 1 resolves to `y = 72`,
`height = 20`. -/
theorem C1_line_tuple_flip_witness :
    (lineTupleToBox (1, 700, 20, 792)).bind
        (lineTransformOne [⟨1, 600, 792, 1⟩] (getPageOffsets [⟨1, 600, 792, 1⟩]) 1 [] 0) =
      some ⟨.lineId none 0, 0, 72, 500, 20, 1⟩ := by
  have h := C1_line_tuple_flip 1 700 20 792 [⟨1, 600, 792, 1⟩]
    (getPageOffsets [⟨1, 600, 792, 1⟩]) [] 0 0 ⟨1, 600, 792, 1⟩
    (by norm_num) (by norm_num) (by norm_num [qIdx]) rfl rfl
  rw [h]
  norm_num [offsetAt, qIdx, getPageOffsets, offsetsFrom]

/-- C4 amended: a line-tuple box always resolves with `x = 0`, but its
width is the hard-coded default `500` source units (so `500 * scale` in
viewport space), *not* the viewport's width. -/
theorem C4_line_width_default (t : ℚ × ℚ × ℚ × ℚ) (md : List PageMeta) (offs lnos : List ℚ)
    (sc : ℚ) (idx : ℕ) (b : PBox) (r : MergedHighlight)
    (hb : lineTupleToBox t = some b) (hr : lineTransformOne md offs sc lnos idx b = some r) :
    r.x = 0 ∧ r.width = 500 * sc := by
  have hbx : b.x = 0 ∧ b.width = 500 := by
    simp only [lineTupleToBox] at hb
    split_ifs at hb with h
    · cases hb
      exact ⟨rfl, rfl⟩
  simp only [lineTransformOne] at hr
  cases hmeta : metaAt md b.page with
  | none => rw [hmeta] at hr; cases hr
  | some meta =>
      rw [hmeta] at hr
      cases hr
      exact ⟨by rw [hbx.1, zero_mul], by rw [hbx.2]⟩

/-- Witness for `C4_line_width_default` at the end-to-end input. -/
theorem C4_line_width_default_witness :
    (⟨.lineId none 0, 0, 72, 500, 20, 1⟩ : MergedHighlight).x = 0 ∧
    (⟨.lineId none 0, 0, 72, 500, 20, 1⟩ : MergedHighlight).width = 500 * 1 := by
  refine C4_line_width_default (1, 700, 20, 792) [⟨1, 600, 792, 1⟩]
    (getPageOffsets [⟨1, 600, 792, 1⟩]) [] 1 0 ⟨0, 700, 500, 20, 1⟩ _ ?_ ?_
  · norm_num [lineTupleToBox, jsOr]
  · norm_num [lineTransformOne, metaAt, qIdx, offsetAt, getPageOffsets, offsetsFrom]

/-- C4 counterexample: the claim says a line-tuple box spans the full page
width (`width = viewport.width`).  With a 600-wide viewport the tuple
`[1,700,20,792]` resolves to width `500` (the hard-coded default of
`lineNumbersToBoxes`), not `600`. -/
theorem C4_width_not_viewport_cex :
    ((lineTupleToBox (1, 700, 20, 792)).bind
        (lineTransformOne [⟨1, 600, 792, 1⟩] (getPageOffsets [⟨1, 600, 792, 1⟩]) 1 [] 0)).map
      (fun r => r.width) = some 500 ∧
    (([⟨1, 600, 792, 1⟩] : List PageMeta)[0]?).map (fun m => m.width) = some 600 ∧
    (500 : ℚ) ≠ 600 := by
  refine ⟨?_, by norm_num, by norm_num⟩
  norm_num [lineTupleToBox, jsOr, lineTransformOne, metaAt, qIdx, offsetAt, getPageOffsets,
    offsetsFrom, Option.bind]

/-- C5 amended (line-based active path): the `activeHighlights` transformer
returns `null` exactly for a record whose page has no viewport entry, such
records are absent from the filtered output, and every record with a valid
page appears, fully transformed; the word-index `positionedHighlights`
path, by contrast, passes an unresolvable record through untransformed (see
`C5_positioned_keeps_stale_cex`). -/
theorem C5_line_null_propagation (md : List PageMeta) (offs lnos : List ℚ) (sc : ℚ) :
    (∀ (idx : ℕ) (box : PBox), metaAt md box.page = none →
        lineTransformOne md offs sc lnos idx box = none) ∧
    (∀ (idx : ℕ) (box : PBox) (meta : PageMeta), metaAt md box.page = some meta →
        lineTransformOne md offs sc lnos idx box =
          some ⟨.lineId lnos[idx]? idx, box.x * sc,
            (meta.height - box.y - box.height) * sc + offsetAt offs box.page,
            box.width * sc, box.height * sc, box.page⟩) ∧
    (∀ (boxes : List PBox) (r : MergedHighlight),
        r ∈ activeLineHighlights md offs sc lnos boxes ↔
          ∃ pr ∈ withIdx 0 boxes, lineTransformOne md offs sc lnos pr.1 pr.2 = some r) := by
  refine ⟨?_, ?_, ?_⟩
  · intro idx box h
    simp [lineTransformOne, h]
  · intro idx box meta h
    simp [lineTransformOne, h]
  · intro boxes r
    simp only [activeLineHighlights, List.mem_filterMap, List.mem_map, id_eq]
    constructor
    · rintro ⟨a, ⟨pr, hpr, rfl⟩, ha⟩
      exact ⟨pr, hpr, ha⟩
    · rintro ⟨pr, hpr, h⟩
      exact ⟨lineTransformOne md offs sc lnos pr.1 pr.2, ⟨pr, hpr, rfl⟩, h⟩

/-- Witness for `C5_line_null_propagation`: with one viewport, a record on
page 2 transforms to `null` and is absent from the active output, while its
page-1 sibling is present transformed. -/
theorem C5_line_null_propagation_witness :
    lineTransformOne [⟨1, 600, 792, 1⟩] [0] 1 [] 0 ⟨0, 700, 500, 20, 2⟩ = none ∧
    (⟨.lineId none 1, 0, (792 - 700 - 20) * 1 + 0, 500 * 1, 20 * 1, 1⟩ : MergedHighlight) ∈
      activeLineHighlights [⟨1, 600, 792, 1⟩] [0] 1 [] [⟨0, 700, 500, 20, 2⟩, ⟨0, 700, 500, 20, 1⟩] := by
  have h := C5_line_null_propagation [⟨1, 600, 792, 1⟩] [0] [] 1
  constructor
  · exact h.1 0 ⟨0, 700, 500, 20, 2⟩ (by norm_num [metaAt, qIdx])
  · refine (h.2.2 [⟨0, 700, 500, 20, 2⟩, ⟨0, 700, 500, 20, 1⟩] _).mpr ?_
    refine ⟨(1, ⟨0, 700, 500, 20, 1⟩), ?_, ?_⟩
    · simp [withIdx]
    · have := h.2.1 1 ⟨0, 700, 500, 20, 1⟩ ⟨1, 600, 792, 1⟩ (by norm_num [metaAt, qIdx])
      rw [this]
      norm_num [offsetAt, qIdx]

/-- C5 counterexample: in the word-index `positionedHighlights` path the
claim fails — a highlight on page 2 with only one viewport entry is *not*
dropped: `if (!pageMeta) return highlight` passes it through untransformed,
so it is present in the final rectangle output. -/
theorem C5_positioned_keeps_stale_cex :
    (([⟨1, 600, 792, 1⟩] : List PageMeta))[1]? = none ∧
    positionedHighlights [⟨1, 600, 792, 1⟩] (getPageOffsets [⟨1, 600, 792, 1⟩]) 1
        [⟨.pageId 2 0, 10, 20, 30, 40, 2⟩] =
      [⟨.pageId 2 0, 10, 20, 30, 40, 2⟩] ∧
    (⟨.pageId 2 0, 10, 20, 30, 40, 2⟩ : MergedHighlight) ∈
      positionedHighlights [⟨1, 600, 792, 1⟩] (getPageOffsets [⟨1, 600, 792, 1⟩]) 1
        [⟨.pageId 2 0, 10, 20, 30, 40, 2⟩] := by
  refine ⟨rfl, ?_, ?_⟩ <;>
    norm_num [positionedHighlights, metaAt, qIdx]

/-- A skipped entry leaves the lookup untouched. -/
theorem processWord_skipped (e : WordEntry) (he : skippedWord e) :
    ∀ m, processWord m e = m := by
  cases e with
  | nonObject => intro m; rfl
  | obj w =>
      intro m
      cases hi : w.index with
      | num q =>
          rcases he with hidx | hbox
          · rw [hi] at hidx
            simp only [skippedWord] at hidx
          · simp only [processWord, hi, hbox]
      | absent => simp only [processWord, hi]
      | other => simp only [processWord, hi]

/-- C7 amended: an entry of the `words` array lacking a resolvable numeric
index (or carrying a truthy non-object in its box field) is omitted from
the normalized lookup, and its removal is invisible to every other entry of
the payload: the lookup is the one computed from the payload without it.
(The half of the original claim about entries *lacking a box* is false —
see `C7_boxless_entry_kept_cex`.) -/
theorem C7_malformed_entry_skipped (pre post : List WordEntry) (pgs : List PageObj)
    (e : WordEntry) (he : skippedWord e) :
    buildIndexLookup ⟨pre ++ e :: post, pgs⟩ = buildIndexLookup ⟨pre ++ post, pgs⟩ := by
  simp only [buildIndexLookup, List.foldl_append, List.foldl_cons,
    processWord_skipped e he]

/-- Witness for `C7_malformed_entry_skipped`: an entry whose `index` is a
non-number is dropped while its well-formed sibling is still processed. -/
theorem C7_malformed_entry_skipped_witness :
    buildIndexLookup ⟨[.obj { index := .other }, .obj { index := .num 3, bbox := .obj { x1 := some 1, y1 := some 2, x2 := some 4, y2 := some 6 } }], []⟩ =
      buildIndexLookup ⟨[.obj { index := .num 3, bbox := .obj { x1 := some 1, y1 := some 2, x2 := some 4, y2 := some 6 } }], []⟩ := by
  exact C7_malformed_entry_skipped [] [.obj { index := .num 3, bbox := .obj { x1 := some 1, y1 := some 2, x2 := some 4, y2 := some 6 } }] [] (.obj { index := .other }) (Or.inl trivial)

/-- C7 counterexample: an entry that *has* a numeric index but *lacks any
resolvable bounding box* (both `bbox` and `bounding_box` falsy) is **not**
omitted — `word.bbox || word.bounding_box || {}` substitutes an empty
object and the entry is stored with the defaulted all-zero box at page 1,
contradicting the claim that box-less entries are dropped. -/
theorem C7_boxless_entry_kept_cex :
    buildIndexLookup ⟨[.obj { index := .num 0 }], []⟩ = [(0, ⟨0, 0, 0, 0, 1⟩)] ∧
    mapGet (buildIndexLookup ⟨[.obj { index := .num 0 }], []⟩) 0 = some ⟨0, 0, 0, 0, 1⟩ := by
  constructor <;>
    norm_num [buildIndexLookup, processWord, effBox, mkBox, resolveCorners, wordPage,
      mapSet, mapGet, List.find?]

/-- Every box the normalizer builds has non-negative extents: width and
height are absolute values. -/
theorem mkBox_nonneg (b : BBoxFields) (pg : ℚ) :
    0 ≤ (mkBox b pg).width ∧ 0 ≤ (mkBox b pg).height := by
  simp only [mkBox]
  exact ⟨abs_nonneg _, abs_nonneg _⟩

/-- An entry of an updated map is an entry of the old map or carries the
new value. -/
theorem mapSet_mem (m : List (ℚ × BoundingBox)) (k : ℚ) (v : BoundingBox) :
    ∀ e ∈ mapSet m k v, e ∈ m ∨ e.2 = v := by
  intro e he
  simp only [mapSet] at he
  split at he
  · rcases List.mem_map.mp he with ⟨e0, he0, heq⟩
    split at heq
    · right; rw [← heq]
    · left; rw [← heq]; exact he0
  · rcases List.mem_append.mp he with h | h
    · left; exact h
    · right
      simp only [List.mem_singleton] at h
      rw [h]

/-- Processing one `words` entry only ever adds non-negative boxes. -/
theorem processWord_mem (m : List (ℚ × BoundingBox)) (e : WordEntry) :
    ∀ x ∈ processWord m e, x ∈ m ∨ (0 ≤ x.2.width ∧ 0 ≤ x.2.height) := by
  intro x hx
  cases e with
  | nonObject => exact Or.inl hx
  | obj w =>
      simp only [processWord] at hx
      cases hidx : w.index with
      | num q =>
          rw [hidx] at hx
          cases heb : effBox w with
          | obj b =>
              rw [heb] at hx
              rcases mapSet_mem m q (mkBox b (wordPage w)) x hx with h | h
              · exact Or.inl h
              · exact Or.inr (h ▸ mkBox_nonneg b (wordPage w))
          | falsy => rw [heb] at hx; exact Or.inl hx
          | nonObjTruthy => rw [heb] at hx; exact Or.inl hx
      | absent => rw [hidx] at hx; exact Or.inl hx
      | other => rw [hidx] at hx; exact Or.inl hx

/-- Processing one nested `pages[k].words` entry only ever adds
non-negative boxes. -/
theorem processPageWord_mem (pn : ℚ) (m : List (ℚ × BoundingBox)) (e : WordEntry) :
    ∀ x ∈ processPageWord pn m e, x ∈ m ∨ (0 ≤ x.2.width ∧ 0 ≤ x.2.height) := by
  intro x hx
  cases e with
  | nonObject => exact Or.inl hx
  | obj w =>
      simp only [processPageWord] at hx
      cases hidx : w.index with
      | num q =>
          rw [hidx] at hx
          cases heb : effBox w with
          | obj b =>
              rw [heb] at hx
              rcases mapSet_mem m q (mkBox b pn) x hx with h | h
              · exact Or.inl h
              · exact Or.inr (h ▸ mkBox_nonneg b pn)
          | falsy => rw [heb] at hx; exact Or.inl hx
          | nonObjTruthy => rw [heb] at hx; exact Or.inl hx
      | absent => rw [hidx] at hx; exact Or.inl hx
      | other => rw [hidx] at hx; exact Or.inl hx

/-- The nested per-page word fold only ever adds non-negative boxes. -/
theorem foldl_processPageWord_mem (pn : ℚ) (l : List WordEntry) :
    ∀ (m : List (ℚ × BoundingBox)) (x), x ∈ l.foldl (processPageWord pn) m →
      x ∈ m ∨ (0 ≤ x.2.width ∧ 0 ≤ x.2.height) := by
  induction l with
  | nil => intro m x hx; exact Or.inl hx
  | cons e rest ih =>
      intro m x hx
      rcases ih (processPageWord pn m e) x hx with h | h
      · exact processPageWord_mem pn m e x h
      · exact Or.inr h

/-- The `words` fold only ever adds non-negative boxes. -/
theorem foldl_processWord_mem (l : List WordEntry) :
    ∀ (m : List (ℚ × BoundingBox)) (x), x ∈ l.foldl processWord m →
      x ∈ m ∨ (0 ≤ x.2.width ∧ 0 ≤ x.2.height) := by
  induction l with
  | nil => intro m x hx; exact Or.inl hx
  | cons e rest ih =>
      intro m x hx
      rcases ih (processWord m e) x hx with h | h
      · exact processWord_mem m e x h
      · exact Or.inr h

/-- The nested per-page folds only ever add non-negative boxes. -/
theorem foldl_pages_mem (pgs : List PageObj) :
    ∀ (m : List (ℚ × BoundingBox)) (x),
      x ∈ pgs.foldl (fun m pg => pg.words.foldl (processPageWord (pageNumVal pg)) m) m →
      x ∈ m ∨ (0 ≤ x.2.width ∧ 0 ≤ x.2.height) := by
  induction pgs with
  | nil => intro m x hx; exact Or.inl hx
  | cons pg rest ih =>
      intro m x hx
      rcases ih _ x hx with h | h
      · exact foldl_processPageWord_mem (pageNumVal pg) pg.words m x h
      · exact Or.inr h

/-- C10: every box stored by the word-index normalizer has non-negative
width and height, and with any two numeric corners `(a,b)` and `(c,d)` —
in either order — the stored box is the top-left-normalized rectangle
`x = min(x1,x2)`, `y = min(y1,y2)`, `width = |x2-x1|`, `height = |y2-y1|`. -/
theorem C10_normalized_box_invariants :
    (∀ (P : BBPayload) (k : ℚ) (box : BoundingBox),
        mapGet (buildIndexLookup P) k = some box → 0 ≤ box.width ∧ 0 ≤ box.height) ∧
    (∀ a b c d : ℚ,
        buildIndexLookup ⟨[.obj { index := .num 0, bbox := .obj { x1 := some a, y1 := some b, x2 := some c, y2 := some d } }], []⟩ =
          [(0, ⟨min a c, min b d, |c - a|, |d - b|, 1⟩)] ∧
        buildIndexLookup ⟨[.obj { index := .num 0, bbox := .obj { x1 := some c, y1 := some d, x2 := some a, y2 := some b } }], []⟩ =
          [(0, ⟨min a c, min b d, |c - a|, |d - b|, 1⟩)]) := by
  constructor
  · intro P k box hget
    simp only [mapGet, Option.map_eq_some'] at hget
    rcases hget with ⟨e, hfind, hbox⟩
    have hmem : e ∈ buildIndexLookup P := List.mem_of_find?_eq_some hfind
    simp only [buildIndexLookup] at hmem
    rcases foldl_pages_mem P.pages _ e hmem with h | h
    · rcases foldl_processWord_mem P.words [] e h with h2 | h2
      · simp at h2
      · exact hbox ▸ h2
    · exact hbox ▸ h
  · intro a b c d
    constructor
    · simp [buildIndexLookup, processWord, effBox, mkBox, resolveCorners, wordPage, mapSet]
    · simp [buildIndexLookup, processWord, effBox, mkBox, resolveCorners, wordPage, mapSet,
        min_comm c a, min_comm d b, abs_sub_comm a c, abs_sub_comm b d]

/-- Witness for `C10_normalized_box_invariants`: corners given
bottom-right-first still store a non-negative box. -/
theorem C10_normalized_box_invariants_witness :
    0 ≤ (⟨3, 2, 2, 5, 1⟩ : BoundingBox).width ∧ 0 ≤ (⟨3, 2, 2, 5, 1⟩ : BoundingBox).height := by
  refine C10_normalized_box_invariants.1
    ⟨[.obj { index := .num 0, bbox := .obj { x1 := some 5, y1 := some 7, x2 := some 3, y2 := some 2 } }], []⟩ 0 ⟨3, 2, 2, 5, 1⟩ ?_
  norm_num [buildIndexLookup, processWord, effBox, mkBox, resolveCorners, wordPage, mapSet,
    mapGet, List.find?]
